import Mathlib

/-!
Shallow embedding of `tracing-chrometrace` (`src/lib.rs`): the Chrome Trace
Event data model (`EventType`, `ChromeEvent`, its builder), the field
collector (`ChromeEventVisitor::record_debug`), the span lifecycle callbacks
(`on_new_span`, `on_enter`, `on_exit`, `on_close`, `on_event`) and the
deferred-comma emission engine (`ChromeLayer::write` plus the
`ChromeWriterGuard` constructor and `Drop`).

Rust machine values are modelled as follows: `u64` as `Nat` guarded by
`2 ^ 64` where parsing can overflow, `f64` values as an inductive carrying an
exact rational (IEEE rounding is irrelevant to every property proved here,
since no theorem inspects a parsed numeric value), `SystemTime` instants as
rationals supplied by an explicit environment, panics as `Except.error`
carrying the panic message, and the capacity-one `crossbeam` `ArrayQueue` as
a list with a capacity bound.
-/

namespace Chrometrace

/-- The `EventType` enum of `src/lib.rs` (lines 31-78): the Chrome Trace
Event phases. `Instant` carries the `#[default]` attribute. -/
inductive EventType where
  | DurationBegin
  | DurationEnd
  | Complete
  | Instant
  | Counter
  | AsyncStart
  | AsyncInstant
  | AsyncEnd
  | FlowStart
  | FlowStep
  | FlowEnd
  | Sample
  | ObjectCreated
  | ObjectSnapshot
  | ObjectDestroyed
  | Metadata
  | MemoryDumpGlobal
  | MemoryDumpProcess
  | Mark
  | ClockSync
  | ContextBegin
  | ContextEnd
deriving DecidableEq, Repr

/-- The serde `rename` wire code of each `EventType` variant, exactly as the
`#[serde(rename = "...")]` attributes in `src/lib.rs` give them; this is the
string a serialized `ChromeEvent` carries in its `ph` field. -/
def EventType.wire : EventType → String
  | .DurationBegin => "B"
  | .DurationEnd => "E"
  | .Complete => "X"
  | .Instant => "i"
  | .Counter => "C"
  | .AsyncStart => "b"
  | .AsyncInstant => "n"
  | .AsyncEnd => "e"
  | .FlowStart => "s"
  | .FlowStep => "t"
  | .FlowEnd => "f"
  | .Sample => "p"
  | .ObjectCreated => "N"
  | .ObjectSnapshot => "O"
  | .ObjectDestroyed => "D"
  | .Metadata => "M"
  | .MemoryDumpGlobal => "V"
  | .MemoryDumpProcess => "v"
  | .Mark => "R"
  | .ClockSync => "c"
  | .ContextBegin => "("
  | .ContextEnd => ")"

/-- The serde rename table: each wire code paired with its variant, in
declaration order. -/
def wireTable : List (String × EventType) :=
  [("B", .DurationBegin), ("E", .DurationEnd), ("X", .Complete),
   ("i", .Instant), ("C", .Counter), ("b", .AsyncStart),
   ("n", .AsyncInstant), ("e", .AsyncEnd), ("s", .FlowStart),
   ("t", .FlowStep), ("f", .FlowEnd), ("p", .Sample),
   ("N", .ObjectCreated), ("O", .ObjectSnapshot), ("D", .ObjectDestroyed),
   ("M", .Metadata), ("V", .MemoryDumpGlobal), ("v", .MemoryDumpProcess),
   ("R", .Mark), ("c", .ClockSync), ("(", .ContextBegin),
   (")", .ContextEnd)]

/-- Serde deserialization of a wire code back into an `EventType`: the
inverse direction generated by `#[derive(Deserialize)]` matches the input
string against the rename of each variant in declaration order; an unknown
code is a deserialization error (`none`). -/
def EventType.fromWire (s : String) : Option EventType :=
  (wireTable.find? (fun p => p.1 == s)).map (fun p => p.2)

/-- The strum `EnumString` parser (`EventType::from_str`): it matches the
variant NAME (e.g. `"DurationBegin"`), not the serde wire code; this is what
the field collector applies to a recorded `ph` field. -/
def EventType.fromName (s : String) : Option EventType :=
  if s = "DurationBegin" then some .DurationBegin
  else if s = "DurationEnd" then some .DurationEnd
  else if s = "Complete" then some .Complete
  else if s = "Instant" then some .Instant
  else if s = "Counter" then some .Counter
  else if s = "AsyncStart" then some .AsyncStart
  else if s = "AsyncInstant" then some .AsyncInstant
  else if s = "AsyncEnd" then some .AsyncEnd
  else if s = "FlowStart" then some .FlowStart
  else if s = "FlowStep" then some .FlowStep
  else if s = "FlowEnd" then some .FlowEnd
  else if s = "Sample" then some .Sample
  else if s = "ObjectCreated" then some .ObjectCreated
  else if s = "ObjectSnapshot" then some .ObjectSnapshot
  else if s = "ObjectDestroyed" then some .ObjectDestroyed
  else if s = "Metadata" then some .Metadata
  else if s = "MemoryDumpGlobal" then some .MemoryDumpGlobal
  else if s = "MemoryDumpProcess" then some .MemoryDumpProcess
  else if s = "Mark" then some .Mark
  else if s = "ClockSync" then some .ClockSync
  else if s = "ContextBegin" then some .ContextBegin
  else if s = "ContextEnd" then some .ContextEnd
  else none

/-- A Rust `f64` value as the collector stores it: an exact rational for
finite literals, with infinities and NaN kept as separate markers so the
parser accepts exactly the grammar `f64::from_str` accepts. No theorem in
this file inspects a parsed numeric value, so IEEE rounding of the rational
is irrelevant. -/
inductive F64Val where
  | finite (q : ℚ)
  | inf (neg : Bool)
  | nan
deriving DecidableEq, Repr

/-- Decimal digits to a natural number (helper for the numeric parsers). -/
def digitsToNat (l : List Char) : Nat :=
  l.foldl (fun a c => a * 10 + (c.toNat - 48)) 0

/-- Rust `u64::from_str`, as invoked by `value.parse()` for the `pid`/`tid`
fields: an optional leading `+` sign, then one or more ASCII digits, with an
overflow error above `2 ^ 64 - 1`. -/
def parseU64 (s : String) : Option Nat :=
  let l := match s.data with
    | '+' :: r => r
    | r => r
  if l ≠ [] ∧ l.all Char.isDigit then
    let n := digitsToNat l
    if n < 2 ^ 64 then some n else none
  else none

/-- The exponent part of a float literal: optional sign then nonempty
digits. -/
def parseExp (l : List Char) : Option Int :=
  let (neg, l) := match l with
    | '-' :: r => (true, r)
    | '+' :: r => (false, r)
    | r => (false, r)
  if l ≠ [] ∧ l.all Char.isDigit then
    some (if neg then -(digitsToNat l : Int) else (digitsToNat l : Int))
  else none

/-- The mantissa of a float literal: `Digits ( . Digits? )?` or `. Digits`,
with at least one digit overall. -/
def parseMantissa (l : List Char) : Option ℚ :=
  let ip := l.takeWhile Char.isDigit
  match l.dropWhile Char.isDigit with
  | [] => if ip = [] then none else some (digitsToNat ip : ℚ)
  | '.' :: r2 =>
    if r2.all Char.isDigit ∧ (ip ≠ [] ∨ r2 ≠ []) then
      some ((digitsToNat ip : ℚ) + (digitsToNat r2 : ℚ) / (10 : ℚ) ^ r2.length)
    else none
  | _ => none

/-- Split a float literal at the first exponent marker `e`/`E`. -/
def splitAtExp (l : List Char) : List Char × Option (List Char) :=
  match l.findIdx? (fun c => c == 'e' || c == 'E') with
  | some i => (l.take i, some (l.drop (i + 1)))
  | none => (l, none)

/-- Rust `f64::from_str`, as invoked by `value.parse()` for the
`ts`/`dur`/`tts` fields: optional sign, then case-insensitive
`inf`/`infinity`/`nan` or a decimal mantissa with optional exponent. -/
def parseF64 (s : String) : Option F64Val :=
  let (neg, l) := match s.data with
    | '-' :: r => (true, r)
    | '+' :: r => (false, r)
    | r => (false, r)
  let lower := l.map Char.toLower
  if lower = "inf".data ∨ lower = "infinity".data then some (.inf neg)
  else if lower = "nan".data then some .nan
  else
    let (mant, expPart) := splitAtExp l
    match parseMantissa mant with
    | none => none
    | some q =>
      let q := if neg then -q else q
      match expPart with
      | none => some (.finite q)
      | some el =>
        match parseExp el with
        | none => none
        | some e => some (.finite (q * (10 : ℚ) ^ e))

/-- Rust `str::trim_matches(c)` on a character list: strip every leading and
every trailing occurrence of `c`, keeping interior occurrences. -/
def trimCharList (c : Char) (l : List Char) : List Char :=
  ((l.dropWhile (· == c)).reverse.dropWhile (· == c)).reverse

/-- Rust `str::trim_matches(c)` on a string. -/
def trimMatches (c : Char) (s : String) : String :=
  ⟨trimCharList c s.data⟩

/-- The environment a `ChromeEvent` is built in: the current instant (for
the default `ts` computed from `SystemTime::now()`), the OS process id and
the calling thread id. Instants are rationals in nanoseconds. -/
structure Env where
  now : ℚ
  pid : Nat
  tid : Nat
deriving DecidableEq, Repr

/-- The `derive_builder`-generated `ChromeEventBuilder`: every field of
`ChromeEvent` wrapped in `Option` (unset = `none`), except `start`, which
the custom constructor `ChromeEvent::builder(start)` always sets. -/
structure ChromeEventBuilder where
  start : ℚ
  name : Option String := none
  cat : Option String := none
  ph : Option EventType := none
  ts : Option F64Val := none
  dur : Option (Option F64Val) := none
  tts : Option (Option F64Val) := none
  id : Option String := none
  pid : Option Nat := none
  tid : Option Nat := none
  args : List (String × String) := []
deriving DecidableEq, Repr

/-- The `ChromeEvent` record of `src/lib.rs` (lines 80-120). The `start`
field is `#[serde(skip)]` and ignored by `PartialEq`, so it is not part of
the built record here; `args` is a `HashMap`, modelled as an association
list with key overwrite. -/
structure ChromeEvent where
  name : String
  cat : String
  ph : EventType
  ts : F64Val
  dur : Option F64Val
  tts : Option F64Val
  id : String
  pid : Nat
  tid : Nat
  args : List (String × String)
deriving DecidableEq, Repr

/-- Model of `ChromeEvent::builder(start)`: an empty builder whose `start` is set. -/
def ChromeEvent.builder (start : ℚ) : ChromeEventBuilder :=
  { start := start }

/-- Model of `ChromeEventBuilder::build`, applying the `#[builder(default)]`
defaults of `src/lib.rs`: empty strings for `name`/`cat`/`id`
(`Cow::default`), `Instant` for `ph` (the `#[default]` variant), the
elapsed-time computation for `ts`, `None` for `dur`/`tts`, the process and
thread ids for `pid`/`tid`, and an empty map for `args`. All fields have
defaults, so building never fails. -/
def ChromeEventBuilder.build (env : Env) (b : ChromeEventBuilder) : ChromeEvent where
  name := b.name.getD ""
  cat := b.cat.getD ""
  ph := b.ph.getD .Instant
  ts := b.ts.getD (.finite ((env.now - b.start) / 1000))
  dur := b.dur.getD none
  tts := b.tts.getD none
  id := b.id.getD ""
  pid := b.pid.getD env.pid
  tid := b.tid.getD env.tid
  args := b.args

/-- Model of `HashMap::insert` on the association-list model of `args`: overwrite an
existing key, else append. -/
def insertArg (args : List (String × String)) (kv : String × String) :
    List (String × String) :=
  if args.any (fun p => p.1 == kv.1) then
    args.map (fun p => if p.1 == kv.1 then kv else p)
  else args ++ [kv]

/-- The `ChromeEventVisitor` of `src/lib.rs`: the event builder being
populated plus the side-channel `event` directive (set by a field literally
named `event`, e.g. `event = "async"`). -/
structure ChromeEventVisitor where
  builder : ChromeEventBuilder
  event : Option String
deriving DecidableEq, Repr

/-- Model of `ChromeEventVisitor::record_debug` (`src/lib.rs` lines 286-329). The
debug-formatted value first has every leading/trailing `"` stripped by
`trim_matches('"')`. Recognized keys update a typed builder field; `event`
is stored as the side-channel; anything else goes to `args`. Rust panics
(`panic!`, `expect`, `unwrap`) are `Except.error` carrying the panic
message: `panic!("Invalid EventType: {}", value)` for a bad `ph`,
`expect("Invalid timestamp")` (followed by the `ParseFloatError` display)
for bad `ts`/`dur`/`tts`, and the bare `Result::unwrap` message for bad
`pid`/`tid`. -/
def recordDebug (v : ChromeEventVisitor) (fieldName : String)
    (rawValue : String) : Except String ChromeEventVisitor :=
  let value := trimMatches '"' rawValue
  if fieldName = "name" then
    .ok { v with builder := { v.builder with name := some value } }
  else if fieldName = "cat" then
    .ok { v with builder := { v.builder with cat := some value } }
  else if fieldName = "id" then
    .ok { v with builder := { v.builder with id := some value } }
  else if fieldName = "ph" then
    match EventType.fromName value with
    | some ph => .ok { v with builder := { v.builder with ph := some ph } }
    | none => .error ("Invalid EventType: " ++ value)
  else if fieldName = "ts" then
    match parseF64 value with
    | some x => .ok { v with builder := { v.builder with ts := some x } }
    | none => .error "Invalid timestamp: invalid float literal"
  else if fieldName = "dur" then
    match parseF64 value with
    | some x =>
      .ok { v with builder := { v.builder with dur := some (some x) } }
    | none => .error "Invalid timestamp: invalid float literal"
  else if fieldName = "tts" then
    match parseF64 value with
    | some x =>
      .ok { v with builder := { v.builder with tts := some (some x) } }
    | none => .error "Invalid timestamp: invalid float literal"
  else if fieldName = "pid" then
    match parseU64 value with
    | some n => .ok { v with builder := { v.builder with pid := some n } }
    | none => .error "called Result::unwrap() on an Err value: ParseIntError"
  else if fieldName = "tid" then
    match parseU64 value with
    | some n => .ok { v with builder := { v.builder with tid := some n } }
    | none => .error "called Result::unwrap() on an Err value: ParseIntError"
  else if fieldName = "event" then
    .ok { v with event := some value }
  else
    .ok { v with builder :=
      { v.builder with args := insertArg v.builder.args (fieldName, value) } }

/-- Model of `attrs.record(&mut visitor)`: fold `record_debug` over the recorded
(field name, debug-rendered value) pairs in order. -/
def recordAll (v : ChromeEventVisitor) (attrs : List (String × String)) :
    Except String ChromeEventVisitor :=
  attrs.foldlM (fun v kv => recordDebug v kv.1 kv.2) v

/-- The capacity-bounded `crossbeam_queue::ArrayQueue` holding serialized
events; `ChromeLayer::with_writer` creates it with capacity 1. Front of the
list is the front of the queue. -/
structure ArrayQueue where
  cap : Nat
  items : List String
deriving DecidableEq, Repr

/-- Model of `ArrayQueue::force_push`: push `x`, evicting and returning the oldest
element when the queue is full (a zero-capacity queue returns `x` itself
unchanged, per crossbeam). -/
def ArrayQueue.forcePush (q : ArrayQueue) (x : String) :
    ArrayQueue × Option String :=
  if q.cap = 0 then (q, some x)
  else if q.items.length < q.cap then ({ q with items := q.items ++ [x] }, none)
  else ({ q with items := q.items.tail ++ [x] }, q.items.head?)

/-- Emission-engine state: the shared deferred-comma queue plus the bytes
written to the sink so far. -/
structure EmitState where
  queue : ArrayQueue
  sink : String
deriving DecidableEq, Repr

/-- Model of `ChromeWriterGuard::new`: writes the JSON opening bracket `"[\n"` once,
with the capacity-1 queue empty. -/
def guardNew : EmitState :=
  { queue := { cap := 1, items := [] }, sink := "[\n" }

/-- Model of `ChromeLayer::write` after serialization (`src/lib.rs` lines 262-277):
`force_push` the serialized event; when a previous event is evicted, write
it followed by `",\n"`; otherwise write nothing. -/
def layerWrite (s : EmitState) (serialized : String) : EmitState :=
  let (q, evicted) := s.queue.forcePush serialized
  match evicted with
  | some prev => { queue := q, sink := s.sink ++ (prev ++ ",\n") }
  | none => { queue := q, sink := s.sink }

/-- The drain loop of `impl Drop for ChromeWriterGuard` (`src/lib.rs` lines
227-237): while more than one event remains, pop and write it with a
trailing `",\n"`; then pop the last one, if any, and write it with `"\n"`
and no comma. -/
def drainLoop (sink : String) (items : List String) : String :=
  match items with
  | [] => sink
  | [last] => sink ++ (last ++ "\n")
  | e :: rest => drainLoop (sink ++ (e ++ ",\n")) rest

/-- Model of `drop(guard)`: drain the queue, then write the closing `"]\n"`. -/
def guardDrop (s : EmitState) : String :=
  drainLoop s.sink s.queue.items ++ "]\n"

/-- One single-threaded session: construct the guard, submit each serialized
event through `ChromeLayer::write` in order, then drop the guard; returns
the full byte stream the sink received. -/
def runSession (events : List String) : String :=
  guardDrop (events.foldl layerWrite guardNew)

/-- The comma-correct JSON array body: each serialized object followed by
`",\n"` except the last, which is followed by `"\n"` only. -/
def joinEvents : List String → String
  | [] => ""
  | [e] => e ++ "\n"
  | e :: rest => e ++ ",\n" ++ joinEvents rest

/-- Per-span state kept in the span's extensions: the `ChromeEventVisitor`
inserted by `on_new_span`, and whether an `AsyncEntered` marker has been
inserted (absent = `false`). -/
structure SpanState where
  visitor : Option ChromeEventVisitor
  asyncEntered : Bool
deriving DecidableEq, Repr

/-- Model of `ChromeLayer::on_new_span`: record the creation attributes into a fresh
visitor (builder seeded with the layer's start instant) and store it in the
span's extensions. -/
def onNewSpan (start : ℚ) (attrs : List (String × String)) :
    Except String SpanState :=
  (recordAll { builder := ChromeEvent.builder start, event := none } attrs).map
    (fun v => { visitor := some v, asyncEntered := false })

/-- Model of `visitor.event.as_ref().map(|event| event == "async").unwrap_or(false)`:
whether the span carries the `event = "async"` marker. -/
def isAsync (v : ChromeEventVisitor) : Bool :=
  (v.event.map (fun e => e == "async")).getD false

/-- Model of `ChromeLayer::on_enter` (`src/lib.rs` lines 369-400): if an
`AsyncEntered` marker is already present, return without any output;
otherwise insert the marker, set the builder's phase to `AsyncStart` (async
span) or `DurationBegin`, build, and submit the event. Returns the updated
span state and the list of events submitted to the emission engine. -/
def onEnter (env : Env) (s : SpanState) : SpanState × List ChromeEvent :=
  if s.asyncEntered then (s, [])
  else
    let s := { s with asyncEntered := true }
    match s.visitor with
    | some v =>
      let ph := if isAsync v then EventType.AsyncStart else EventType.DurationBegin
      let v := { v with builder := { v.builder with ph := some ph } }
      ({ s with visitor := some v }, [v.builder.build env])
    | none => (s, [])

/-- Model of `ChromeLayer::on_exit` (`src/lib.rs` line 402): the body is empty, so
the span state and the emission-engine state pass through untouched and no
event is submitted. -/
def onExit (s : SpanState) (engine : EmitState) :
    SpanState × EmitState × List ChromeEvent :=
  (s, engine, [])

/-- Model of `ChromeLayer::on_close` (`src/lib.rs` lines 404-427): if the span has a
visitor, set the phase to `AsyncEnd` (async span) or `DurationEnd`, build,
and submit the event; no check that the span was ever entered. -/
def onClose (env : Env) (s : SpanState) : List ChromeEvent :=
  match s.visitor with
  | some v =>
    let ph := if isAsync v then EventType.AsyncEnd else EventType.DurationEnd
    [ChromeEventBuilder.build env { v.builder with ph := some ph }]
  | none => []

/-- Model of `ChromeLayer::on_event` (`src/lib.rs` lines 351-367): a fresh visitor
whose phase is preset to `Instant`, then the event's fields are recorded
(an explicit `ph` field may overwrite the preset), and the built record is
submitted. -/
def onEvent (env : Env) (start : ℚ) (attrs : List (String × String)) :
    Except String ChromeEvent :=
  let v : ChromeEventVisitor :=
    { builder := { ChromeEvent.builder start with ph := some EventType.Instant },
      event := none }
  (recordAll v attrs).map (fun v => v.builder.build env)

section EngineProofs

/-- Behavior of `ChromeLayer::write` on a full capacity-1 queue: the held event is
evicted and written with a trailing comma, the new one takes its slot. -/
theorem layerWrite_single (x e o : String) :
    layerWrite { queue := { cap := 1, items := [x] }, sink := o } e =
      { queue := { cap := 1, items := [e] }, sink := o ++ (x ++ ",\n") } := rfl

/-- Invariant of the submission loop: starting from one queued event `x` and
sink contents `o`, submitting `rest` and then draining writes exactly
`x :: rest` in comma-correct form after `o`. -/
theorem drain_foldl (rest : List String) : ∀ (x o : String),
    drainLoop
      ((rest.foldl layerWrite { queue := { cap := 1, items := [x] }, sink := o }).sink)
      ((rest.foldl layerWrite { queue := { cap := 1, items := [x] }, sink := o }).queue.items)
      = o ++ joinEvents (x :: rest) := by
  induction rest with
  | nil => intro x o; rfl
  | cons e rest ih =>
    intro x o
    rw [List.foldl_cons, layerWrite_single, ih]
    simp only [joinEvents]
    exact String.append_assoc o (x ++ ",\n") (joinEvents (e :: rest))

/-- C1: for any sequence of k events submitted in order from a single
thread between guard construction and guard drop, the sink receives the
opening bracket written once at construction, the k serialized objects in
submission order each followed by a comma except the last, and the closing
bracket written once at drop. -/
theorem c1_single_thread_stream (events : List String) :
    runSession events = "[\n" ++ joinEvents events ++ "]\n" := by
  cases events with
  | nil =>
    show drainLoop "[\n" [] ++ "]\n" = "[\n" ++ joinEvents [] ++ "]\n"
    simp [drainLoop, joinEvents]
  | cons e rest =>
    show guardDrop ((e :: rest).foldl layerWrite guardNew) = _
    rw [List.foldl_cons]
    have h0 : layerWrite guardNew e =
        { queue := { cap := 1, items := [e] }, sink := "[\n" } := rfl
    rw [h0]
    unfold guardDrop
    rw [drain_foldl rest e "[\n"]

end EngineProofs

section PhaseProofs

/-- C5: the code behavior at the divergent input: `EventType::Sample`
serializes to the wire code `"p"`, not the `"P"` the Chrome Trace Event
Format defines for the sample phase. -/
theorem c5_sample_serializes_lowercase :
    EventType.wire .Sample = "p" ∧ EventType.wire .Sample ≠ "P" := by
  exact ⟨rfl, by decide⟩

/-- C8: serializing any phase to its wire code and deserializing that code
yields the original phase; the phase-to-code mapping is injective, and on
every defined code deserialization inverts serialization, so the mapping is
a bijection onto the set of defined codes. -/
theorem c8_phase_roundtrip :
    (∀ e : EventType, EventType.fromWire (EventType.wire e) = some e) ∧
    Function.Injective EventType.wire ∧
    (∀ c e, EventType.fromWire c = some e → EventType.wire e = c) := by
  have hrt : ∀ e : EventType, EventType.fromWire (EventType.wire e) = some e := by
    intro e; cases e <;> rfl
  have htbl : ∀ p ∈ wireTable, EventType.wire p.2 = p.1 := by decide
  refine ⟨hrt, ?_, ?_⟩
  · intro a b hab
    have h := hrt a
    rw [hab, hrt b] at h
    exact (Option.some.inj h).symm
  · intro c e h
    unfold EventType.fromWire at h
    rw [Option.map_eq_some'] at h
    obtain ⟨pr, hfind, hsnd⟩ := h
    have hp : pr.1 = c := by
      have := List.find?_some hfind
      exact eq_of_beq this
    have hmem := List.mem_of_find?_eq_some hfind
    rw [← hsnd, htbl pr hmem, hp]

/-- Witness for C8 at the concrete phase `Sample` and its code `"p"`. -/
theorem c8_phase_roundtrip_witness :
    EventType.fromWire "p" = some .Sample ∧ EventType.wire .Sample = "p" :=
  ⟨c8_phase_roundtrip.1 .Sample,
   c8_phase_roundtrip.2.2 "p" .Sample (c8_phase_roundtrip.1 .Sample)⟩

end PhaseProofs

/-- C9: `on_exit` leaves everything unchanged: the span state and the
emission-engine state pass through identically and no event is written. -/
theorem c9_on_exit_is_noop (s : SpanState) (engine : EmitState) :
    onExit s engine = (s, engine, []) := rfl

section TrimProofs

theorem dropWhile_replicate_append (c : Char) (n : Nat) (l : List Char) :
    (List.replicate n c ++ l).dropWhile (· == c) = l.dropWhile (· == c) := by
  induction n with
  | zero => simp
  | succ n ih => simp [List.replicate_succ, List.dropWhile_cons, ih]

theorem dropWhile_of_head_ne {c : Char} {l : List Char} (h : l.head? ≠ some c) :
    l.dropWhile (· == c) = l := by
  cases l with
  | nil => rfl
  | cons a t =>
    have ha : a ≠ c := fun hac => h (by simp [hac])
    have ha' : (a == c) = false := beq_eq_false_iff_ne.mpr ha
    simp [List.dropWhile_cons, ha']

theorem head?_dropWhile_false {α : Type} (p : α → Bool) (l : List α) :
    ∀ a, (l.dropWhile p).head? = some a → p a = false := by
  induction l with
  | nil => intro a h; simp at h
  | cons x t ih =>
    intro a h
    rw [List.dropWhile_cons] at h
    by_cases hx : p x = true
    · rw [if_pos hx] at h
      exact ih a h
    · rw [if_neg hx] at h
      have hax : a = x := (Option.some.inj h).symm
      rw [hax]
      exact Bool.eq_false_iff.mpr hx

/-- A list whose head and last element (if any) are not `c` is untouched by
`trim_matches(c)`. -/
theorem trim_of_clean (c : Char) (l : List Char) (h1 : l.head? ≠ some c)
    (h2 : l.getLast? ≠ some c) : trimCharList c l = l := by
  unfold trimCharList
  rw [dropWhile_of_head_ne h1,
    dropWhile_of_head_ne (by rw [List.head?_reverse]; exact h2),
    List.reverse_reverse]

/-- The strip `trim_matches(c)` performs removes exactly the maximal runs of `c` at both ends,
keeping the interior verbatim. -/
theorem trim_replicate_append (c : Char) (a b : Nat) (core : List Char)
    (h1 : core.head? ≠ some c) (h2 : core.getLast? ≠ some c) :
    trimCharList c (List.replicate a c ++ core ++ List.replicate b c) = core := by
  unfold trimCharList
  rw [List.append_assoc, dropWhile_replicate_append]
  cases core with
  | nil =>
    have hb : (List.replicate b c).dropWhile (· == c) = [] := by
      have h0 := dropWhile_replicate_append c b []
      rw [List.append_nil] at h0
      exact h0
    simp [hb]
  | cons x t =>
    have hx : (x == c) = false :=
      beq_eq_false_iff_ne.mpr (fun hxc => h1 (by simp [hxc]))
    have hA : List.dropWhile (· == c) ((x :: t) ++ List.replicate b c)
        = (x :: t) ++ List.replicate b c := by
      rw [List.cons_append, List.dropWhile_cons, hx]
      simp
    have hD : (x :: t).reverse.dropWhile (· == c) = (x :: t).reverse :=
      dropWhile_of_head_ne (by rw [List.head?_reverse]; exact h2)
    rw [hA, List.reverse_append, List.reverse_replicate,
      dropWhile_replicate_append, hD, List.reverse_reverse]

/-- Every character list splits as leading `c`-run, trimmed core, trailing
`c`-run, with the core clean at both ends. -/
theorem trim_decomp (c : Char) (l : List Char) :
    ∃ a b, l = List.replicate a c ++ trimCharList c l ++ List.replicate b c ∧
      (trimCharList c l).head? ≠ some c ∧ (trimCharList c l).getLast? ≠ some c := by
  have hrepl : ∀ m : List Char,
      m.takeWhile (· == c) = List.replicate (m.takeWhile (· == c)).length c := by
    intro m
    refine List.eq_replicate_of_mem (fun x hx => ?_)
    have h1 := List.mem_takeWhile_imp hx
    exact eq_of_beq h1
  have hhead_drop : ∀ m : List Char, (m.dropWhile (· == c)).head? ≠ some c := by
    intro m h
    have := head?_dropWhile_false (· == c) m c h
    simp at this
  have hsplit1 : l.takeWhile (· == c) ++ l.dropWhile (· == c) = l :=
    List.takeWhile_append_dropWhile (· == c) l
  have htrim : trimCharList c l
      = ((l.dropWhile (· == c)).reverse.dropWhile (· == c)).reverse := rfl
  have hsplit2 : ((l.dropWhile (· == c)).reverse.dropWhile (· == c)).reverse
      ++ ((l.dropWhile (· == c)).reverse.takeWhile (· == c)).reverse
      = l.dropWhile (· == c) := by
    rw [← List.reverse_append, List.takeWhile_append_dropWhile, List.reverse_reverse]
  have hrep2 : ((l.dropWhile (· == c)).reverse.takeWhile (· == c)).reverse
      = List.replicate ((l.dropWhile (· == c)).reverse.takeWhile (· == c)).length c := by
    conv_lhs => rw [hrepl (l.dropWhile (· == c)).reverse]
    rw [List.reverse_replicate]
  have hlast : (trimCharList c l).getLast? ≠ some c := by
    rw [htrim]
    intro h
    rw [List.getLast?_eq_head?_reverse, List.reverse_reverse] at h
    have := head?_dropWhile_false (· == c) (l.dropWhile (· == c)).reverse c h
    simp at this
  have hheadcore : (trimCharList c l).head? ≠ some c := by
    rw [htrim]
    intro h
    apply hhead_drop l
    rw [← hsplit2, List.head?_append, h]
    rfl
  refine ⟨(l.takeWhile (· == c)).length,
    ((l.dropWhile (· == c)).reverse.takeWhile (· == c)).length, ?_, hheadcore, hlast⟩
  rw [htrim, ← hrepl l, ← hrep2, List.append_assoc, hsplit2, hsplit1]

theorem trimCharList_idem (c : Char) (l : List Char) :
    trimCharList c (trimCharList c l) = trimCharList c l := by
  obtain ⟨a, b, _, h1, h2⟩ := trim_decomp c l
  exact trim_of_clean c _ h1 h2

theorem trimMatches_idem (c : Char) (s : String) :
    trimMatches c (trimMatches c s) = trimMatches c s := by
  unfold trimMatches
  exact congrArg String.mk (trimCharList_idem c s.data)

/-- C10: every recorded value is handled through `trim_matches('"')`: the
collector is invariant under pre-stripping the quotes (so the stored value
never keeps leading or trailing quotes), the strip removes exactly the
leading and trailing quote runs while preserving interior quotes, and a
value consisting only of quotes becomes the empty string. -/
theorem c10_value_quote_stripping :
    (∀ (v : ChromeEventVisitor) (fieldName raw : String),
        recordDebug v fieldName raw
          = recordDebug v fieldName (trimMatches '"' raw)) ∧
    (∀ (a b : Nat) (core : List Char),
        core.head? ≠ some '"' → core.getLast? ≠ some '"' →
        trimCharList '"' (List.replicate a '"' ++ core ++ List.replicate b '"')
          = core) ∧
    (∀ n, trimMatches '"' ⟨List.replicate n '"'⟩ = "") := by
  refine ⟨?_, trim_replicate_append '"', ?_⟩
  · intro v f raw
    simp only [recordDebug, trimMatches_idem]
  · intro n
    have h := trim_replicate_append '"' n 0 [] (by simp) (by simp)
    simp only [List.append_nil, List.replicate_zero] at h
    show String.mk (trimCharList '"' (List.replicate n '"')) = ""
    rw [h]

/-- Witness for C10: a quoted value is recorded identically to its unquoted
form, a doubly-quoted wrapper around `hi` strips to `hi`, and three bare
quotes strip to the empty string. -/
theorem c10_value_quote_stripping_witness :
    recordDebug ⟨ChromeEvent.builder 0, none⟩ "k" "\"hi\""
      = recordDebug ⟨ChromeEvent.builder 0, none⟩ "k" "hi" ∧
    trimCharList '"' (List.replicate 1 '"' ++ ['h', 'i'] ++ List.replicate 2 '"')
      = ['h', 'i'] ∧
    trimMatches '"' ⟨List.replicate 3 '"'⟩ = "" := by
  refine ⟨?_,
    c10_value_quote_stripping.2.1 1 2 ['h', 'i'] (by decide) (by decide),
    c10_value_quote_stripping.2.2 3⟩
  have h := c10_value_quote_stripping.1 ⟨ChromeEvent.builder 0, none⟩ "k" "\"hi\""
  have ht : trimMatches '"' "\"hi\"" = "hi" := rfl
  rw [ht] at h
  exact h

end TrimProofs

section BuilderProofs

/-- C3 counterexample: an Event Record built with no explicit `name` or
`cat` has `name = ""` and `cat = ""` (the `Cow` defaults), not
`"DefaultEventName"`/`"DefaultCategory"`; neither string appears anywhere
in the source. -/
theorem c3_counterexample :
    (ChromeEventBuilder.build ⟨0, 1, 2⟩ (ChromeEvent.builder 0)).name
      ≠ "DefaultEventName" ∧
    (ChromeEventBuilder.build ⟨0, 1, 2⟩ (ChromeEvent.builder 0)).cat
      ≠ "DefaultCategory" := by
  constructor
  · show ("" : String) ≠ "DefaultEventName"
    decide
  · show ("" : String) ≠ "DefaultCategory"
    decide

/-- C3 amended: an Event Record built without an explicit `name` gets the
empty string as its name, and one built without an explicit `cat` gets the
empty string as its category (the `#[builder(default)]` on a `Cow` field is
`Cow::default()`, the empty borrowed string). -/
theorem c3_unset_name_cat_default_empty (env : Env) (b : ChromeEventBuilder)
    (hn : b.name = none) (hc : b.cat = none) :
    (b.build env).name = "" ∧ (b.build env).cat = "" := by
  simp [ChromeEventBuilder.build, hn, hc]

/-- Witness for C3 at the fresh builder. -/
theorem c3_unset_name_cat_default_empty_witness :
    (ChromeEventBuilder.build ⟨0, 1, 2⟩ (ChromeEvent.builder 0)).name = "" ∧
    (ChromeEventBuilder.build ⟨0, 1, 2⟩ (ChromeEvent.builder 0)).cat = "" :=
  c3_unset_name_cat_default_empty ⟨0, 1, 2⟩ (ChromeEvent.builder 0) rfl rfl

/-- C4 counterexample: recording `pid = "abc"` fails with the plain
`Result::unwrap` panic message, which mentions neither the field name
`pid` nor the raw value `abc` — so the failure does not identify the field
name and raw value as the claim requires. -/
theorem c4_counterexample :
    recordDebug ⟨ChromeEvent.builder 0, none⟩ "pid" "abc"
      = Except.error "called Result::unwrap() on an Err value: ParseIntError" ∧
    ¬ ("pid".data <:+:
        "called Result::unwrap() on an Err value: ParseIntError".data) ∧
    ¬ ("abc".data <:+:
        "called Result::unwrap() on an Err value: ParseIntError".data) :=
  ⟨rfl, by decide, by decide⟩

/-- C4 amended: a `ts`/`dur`/`tts` value that fails the float parse, a
`pid`/`tid` value that fails the integer parse, and a `ph` value that is
not a known phase name each abort the collection with a panic; the panic
message carries the raw value only in the `ph` case and never carries the
field name. -/
theorem c4_invalid_field_value_panics (v : ChromeEventVisitor) (raw : String) :
    (parseF64 (trimMatches '"' raw) = none →
        recordDebug v "ts" raw = .error "Invalid timestamp: invalid float literal" ∧
        recordDebug v "dur" raw = .error "Invalid timestamp: invalid float literal" ∧
        recordDebug v "tts" raw = .error "Invalid timestamp: invalid float literal") ∧
    (parseU64 (trimMatches '"' raw) = none →
        recordDebug v "pid" raw
          = .error "called Result::unwrap() on an Err value: ParseIntError" ∧
        recordDebug v "tid" raw
          = .error "called Result::unwrap() on an Err value: ParseIntError") ∧
    (EventType.fromName (trimMatches '"' raw) = none →
        recordDebug v "ph" raw
          = .error ("Invalid EventType: " ++ trimMatches '"' raw)) := by
  refine ⟨fun h => ⟨?_, ?_, ?_⟩, fun h => ⟨?_, ?_⟩, fun h => ?_⟩ <;>
    simp [recordDebug, h]

/-- Witness for C4 at the unparsable raw value `abc`. -/
theorem c4_invalid_field_value_panics_witness :
    recordDebug ⟨ChromeEvent.builder 0, none⟩ "ts" "abc"
      = .error "Invalid timestamp: invalid float literal" ∧
    recordDebug ⟨ChromeEvent.builder 0, none⟩ "tid" "abc"
      = .error "called Result::unwrap() on an Err value: ParseIntError" ∧
    recordDebug ⟨ChromeEvent.builder 0, none⟩ "ph" "abc"
      = .error ("Invalid EventType: " ++ trimMatches '"' "abc") := by
  have h := c4_invalid_field_value_panics ⟨ChromeEvent.builder 0, none⟩ "abc"
  exact ⟨(h.1 rfl).1, (h.2.1 rfl).2, h.2.2 rfl⟩

end BuilderProofs

section LifecycleProofs

/-- C2 counterexample: a span created with no attributes and closed without
ever being entered still produces one record — `on_close` unconditionally
builds and writes an End event, so the output is `[DurationEnd]`, not
empty. -/
theorem c2_counterexample :
    onNewSpan 0 [] = Except.ok
      { visitor := some ⟨ChromeEvent.builder 0, none⟩, asyncEntered := false } ∧
    (onClose ⟨0, 1, 2⟩
        { visitor := some ⟨ChromeEvent.builder 0, none⟩, asyncEntered := false }).map
      ChromeEvent.ph = [EventType.DurationEnd] :=
  ⟨rfl, rfl⟩

/-- C2 amended: a span that is created and then closed without ever being
entered produces no Begin/AsyncStart record but does produce exactly one
End record (AsyncEnd when the async marker is set, DurationEnd otherwise):
`on_close` emits unconditionally whenever the visitor extension exists. -/
theorem c2_close_without_enter_emits_end (env : Env) (start : ℚ)
    (attrs : List (String × String)) (s : SpanState)
    (h : onNewSpan start attrs = .ok s) :
    ∃ v, s.visitor = some v ∧ s.asyncEntered = false ∧
      (onClose env s).map ChromeEvent.ph
        = [if isAsync v then EventType.AsyncEnd else EventType.DurationEnd] := by
  simp only [onNewSpan] at h
  cases hr : recordAll ⟨ChromeEvent.builder start, none⟩ attrs with
  | error e => rw [hr] at h; exact Except.noConfusion h
  | ok v =>
    rw [hr] at h
    injection h with h
    refine ⟨v, by rw [← h], by rw [← h], ?_⟩
    rw [← h]
    by_cases ha : isAsync v
    · simp [onClose, ChromeEventBuilder.build, ha]
    · simp [onClose, ChromeEventBuilder.build, ha]

/-- Witness for C2 at the empty attribute list. -/
theorem c2_close_without_enter_emits_end_witness :
    ∃ v, (SpanState.mk (some ⟨ChromeEvent.builder 0, none⟩) false).visitor
        = some v ∧
      (SpanState.mk (some ⟨ChromeEvent.builder 0, none⟩) false).asyncEntered
        = false ∧
      (onClose ⟨0, 1, 2⟩
          (SpanState.mk (some ⟨ChromeEvent.builder 0, none⟩) false)).map
        ChromeEvent.ph
        = [if isAsync v then EventType.AsyncEnd else EventType.DurationEnd] :=
  c2_close_without_enter_emits_end ⟨0, 1, 2⟩ 0 [] _ rfl

/-- C6: a second (or any later) `on_enter` before close is a complete
no-op: the span state — including the builder and its recorded `start`
instant — is returned unchanged and no further Begin/AsyncStart event is
emitted, even at a different current time. -/
theorem c6_reenter_is_idempotent (env1 env2 : Env) (s : SpanState) :
    onEnter env2 ((onEnter env1 s).1) = ((onEnter env1 s).1, []) := by
  cases h : s.asyncEntered with
  | true => simp [onEnter, h]
  | false =>
    cases hv : s.visitor with
    | none => simp [onEnter, h, hv]
    | some v => simp [onEnter, h, hv]

/-- Recording any field other than `ph` leaves the builder's phase
untouched. -/
theorem recordDebug_ph_eq {v w : ChromeEventVisitor} {f raw : String}
    (hf : f ≠ "ph") (h : recordDebug v f raw = .ok w) :
    w.builder.ph = v.builder.ph := by
  simp only [recordDebug] at h
  by_cases h1 : f = "name"
  · rw [if_pos h1] at h; injection h with h; subst h; rfl
  rw [if_neg h1] at h
  by_cases h2 : f = "cat"
  · rw [if_pos h2] at h; injection h with h; subst h; rfl
  rw [if_neg h2] at h
  by_cases h3 : f = "id"
  · rw [if_pos h3] at h; injection h with h; subst h; rfl
  rw [if_neg h3, if_neg hf] at h
  by_cases h5 : f = "ts"
  · rw [if_pos h5] at h
    cases hp : parseF64 (trimMatches '"' raw) with
    | some x => rw [hp] at h; injection h with h; subst h; rfl
    | none => rw [hp] at h; exact Except.noConfusion h
  rw [if_neg h5] at h
  by_cases h6 : f = "dur"
  · rw [if_pos h6] at h
    cases hp : parseF64 (trimMatches '"' raw) with
    | some x => rw [hp] at h; injection h with h; subst h; rfl
    | none => rw [hp] at h; exact Except.noConfusion h
  rw [if_neg h6] at h
  by_cases h7 : f = "tts"
  · rw [if_pos h7] at h
    cases hp : parseF64 (trimMatches '"' raw) with
    | some x => rw [hp] at h; injection h with h; subst h; rfl
    | none => rw [hp] at h; exact Except.noConfusion h
  rw [if_neg h7] at h
  by_cases h8 : f = "pid"
  · rw [if_pos h8] at h
    cases hp : parseU64 (trimMatches '"' raw) with
    | some n => rw [hp] at h; injection h with h; subst h; rfl
    | none => rw [hp] at h; exact Except.noConfusion h
  rw [if_neg h8] at h
  by_cases h9 : f = "tid"
  · rw [if_pos h9] at h
    cases hp : parseU64 (trimMatches '"' raw) with
    | some n => rw [hp] at h; injection h with h; subst h; rfl
    | none => rw [hp] at h; exact Except.noConfusion h
  rw [if_neg h9] at h
  by_cases h10 : f = "event"
  · rw [if_pos h10] at h; injection h with h; subst h; rfl
  rw [if_neg h10] at h
  injection h with h; subst h; rfl

/-- Recording a whole attribute list with no `ph` key leaves the builder's
phase untouched. -/
theorem recordAll_ph_eq (attrs : List (String × String)) :
    ∀ (v w : ChromeEventVisitor), (∀ kv ∈ attrs, kv.1 ≠ "ph") →
      recordAll v attrs = .ok w → w.builder.ph = v.builder.ph := by
  induction attrs with
  | nil =>
    intro v w _ h
    have h' : Except.ok v = Except.ok w := h
    injection h' with h'
    rw [← h']
  | cons kv rest ih =>
    intro v w hno h
    simp only [recordAll, List.foldlM_cons] at h
    cases hr : recordDebug v kv.1 kv.2 with
    | error e => rw [hr] at h; exact Except.noConfusion h
    | ok u =>
      rw [hr] at h
      have h' : recordAll u rest = .ok w := h
      have hstep := recordDebug_ph_eq (hno kv (List.mem_cons_self kv rest)) hr
      have hrest := ih u w (fun x hx => hno x (List.mem_cons_of_mem kv hx)) h'
      rw [hrest, hstep]

/-- Recording a field literally named `event` stores its trimmed value as
the side-channel directive. -/
theorem recordDebug_event (v : ChromeEventVisitor) (raw : String) :
    recordDebug v "event" raw
      = .ok { v with event := some (trimMatches '"' raw) } := rfl

/-- Recording any field other than `event` leaves the side-channel
directive untouched. -/
theorem recordDebug_event_eq {v w : ChromeEventVisitor} {f raw : String}
    (hf : f ≠ "event") (h : recordDebug v f raw = .ok w) :
    w.event = v.event := by
  simp only [recordDebug] at h
  by_cases h1 : f = "name"
  · rw [if_pos h1] at h; injection h with h; subst h; rfl
  rw [if_neg h1] at h
  by_cases h2 : f = "cat"
  · rw [if_pos h2] at h; injection h with h; subst h; rfl
  rw [if_neg h2] at h
  by_cases h3 : f = "id"
  · rw [if_pos h3] at h; injection h with h; subst h; rfl
  rw [if_neg h3] at h
  by_cases h4 : f = "ph"
  · rw [if_pos h4] at h
    cases hp : EventType.fromName (trimMatches '"' raw) with
    | some ph => rw [hp] at h; injection h with h; subst h; rfl
    | none => rw [hp] at h; exact Except.noConfusion h
  rw [if_neg h4] at h
  by_cases h5 : f = "ts"
  · rw [if_pos h5] at h
    cases hp : parseF64 (trimMatches '"' raw) with
    | some x => rw [hp] at h; injection h with h; subst h; rfl
    | none => rw [hp] at h; exact Except.noConfusion h
  rw [if_neg h5] at h
  by_cases h6 : f = "dur"
  · rw [if_pos h6] at h
    cases hp : parseF64 (trimMatches '"' raw) with
    | some x => rw [hp] at h; injection h with h; subst h; rfl
    | none => rw [hp] at h; exact Except.noConfusion h
  rw [if_neg h6] at h
  by_cases h7 : f = "tts"
  · rw [if_pos h7] at h
    cases hp : parseF64 (trimMatches '"' raw) with
    | some x => rw [hp] at h; injection h with h; subst h; rfl
    | none => rw [hp] at h; exact Except.noConfusion h
  rw [if_neg h7] at h
  by_cases h8 : f = "pid"
  · rw [if_pos h8] at h
    cases hp : parseU64 (trimMatches '"' raw) with
    | some n => rw [hp] at h; injection h with h; subst h; rfl
    | none => rw [hp] at h; exact Except.noConfusion h
  rw [if_neg h8] at h
  by_cases h9 : f = "tid"
  · rw [if_pos h9] at h
    cases hp : parseU64 (trimMatches '"' raw) with
    | some n => rw [hp] at h; injection h with h; subst h; rfl
    | none => rw [hp] at h; exact Except.noConfusion h
  rw [if_neg h9, if_neg hf] at h
  injection h with h; subst h; rfl

/-- Recording a whole attribute list with no `event` key leaves the
side-channel directive untouched. -/
theorem recordAll_event_eq (attrs : List (String × String)) :
    ∀ (v w : ChromeEventVisitor), (∀ kv ∈ attrs, kv.1 ≠ "event") →
      recordAll v attrs = .ok w → w.event = v.event := by
  induction attrs with
  | nil =>
    intro v w _ h
    have h' : Except.ok v = Except.ok w := h
    injection h' with h'
    rw [← h']
  | cons kv rest ih =>
    intro v w hno h
    simp only [recordAll, List.foldlM_cons] at h
    cases hr : recordDebug v kv.1 kv.2 with
    | error e => rw [hr] at h; exact Except.noConfusion h
    | ok u =>
      rw [hr] at h
      have h' : recordAll u rest = .ok w := h
      have hstep := recordDebug_event_eq (hno kv (List.mem_cons_self kv rest)) hr
      have hrest := ih u w (fun x hx => hno x (List.mem_cons_of_mem kv hx)) h'
      rw [hrest, hstep]

/-- Recording an attribute list that contains an `event` key anywhere — at
any position, possibly followed by further fields — where every `event` key
carries a value trimming to `async` (the host framework guarantees field
names are unique per call site, so this only rules out a self-contradictory
list) leaves the visitor's async marker set. -/
theorem recordAll_event_async (attrs : List (String × String)) :
    ∀ (v0 v1 : ChromeEventVisitor),
      (∃ kv ∈ attrs, kv.1 = "event") →
      (∀ kv ∈ attrs, kv.1 = "event" → trimMatches '"' kv.2 = "async") →
      recordAll v0 attrs = .ok v1 →
      v1.event = some "async" := by
  induction attrs with
  | nil =>
    intro v0 v1 hex _ _
    obtain ⟨kv, hkv, _⟩ := hex
    exact absurd hkv (List.not_mem_nil kv)
  | cons kv rest ih =>
    intro v0 v1 hex hall h
    simp only [recordAll, List.foldlM_cons] at h
    cases hr : recordDebug v0 kv.1 kv.2 with
    | error e => rw [hr] at h; exact Except.noConfusion h
    | ok u =>
      rw [hr] at h
      have h' : recordAll u rest = .ok v1 := h
      by_cases hrest : ∃ kv2 ∈ rest, kv2.1 = "event"
      · exact ih u v1 hrest (fun x hx => hall x (List.mem_cons_of_mem kv hx)) h'
      · have hkv1 : kv.1 = "event" := by
          obtain ⟨kv2, hkv2, he2⟩ := hex
          rcases List.mem_cons.mp hkv2 with heq | hm
          · exact heq ▸ he2
          · exact absurd ⟨kv2, hm, he2⟩ hrest
        have hval := hall kv (List.mem_cons_self kv rest) hkv1
        have hu : u.event = some "async" := by
          rw [hkv1, recordDebug_event] at hr
          injection hr with hr
          rw [← hr]
          show some (trimMatches '"' kv.2) = some "async"
          rw [hval]
        have hnone : ∀ x ∈ rest, x.1 ≠ "event" :=
          fun x hx hxe => hrest ⟨x, hx, hxe⟩
        rw [recordAll_event_eq rest u v1 hnone h', hu]

/-- C7: phase selection. For a span state at its first entry (`hne`): with
the async marker the entry event is AsyncStart and the close event is
AsyncEnd; without it, DurationBegin and DurationEnd. The marker is what
creation attributes that include `event = "async"` at any position install
(the side condition that every `event`-keyed attribute carries that value
only rules out a self-contradictory list, since the host framework keeps
field names unique per call site). A free event recorded outside any span
gets the Instant phase whenever no explicit `ph` field overrides the
preset. -/
theorem c7_phase_selection (env : Env) (s : SpanState) (v : ChromeEventVisitor)
    (hv : s.visitor = some v) (hne : s.asyncEntered = false) :
    ((isAsync v = true →
        (onEnter env s).2.map ChromeEvent.ph = [EventType.AsyncStart] ∧
        (onClose env s).map ChromeEvent.ph = [EventType.AsyncEnd]) ∧
     (isAsync v = false →
        (onEnter env s).2.map ChromeEvent.ph = [EventType.DurationBegin] ∧
        (onClose env s).map ChromeEvent.ph = [EventType.DurationEnd])) ∧
    (∀ (start : ℚ) (attrs : List (String × String)) (s1 : SpanState),
        ("event", "\"async\"") ∈ attrs →
        (∀ kv ∈ attrs, kv.1 = "event" → kv.2 = "\"async\"") →
        onNewSpan start attrs = .ok s1 →
        ∃ v1, s1.visitor = some v1 ∧ isAsync v1 = true) ∧
    (∀ (start : ℚ) (attrs : List (String × String)) (ev : ChromeEvent),
        (∀ kv ∈ attrs, kv.1 ≠ "ph") → onEvent env start attrs = .ok ev →
        ev.ph = EventType.Instant) := by
  refine ⟨⟨fun ha => ⟨?_, ?_⟩, fun ha => ⟨?_, ?_⟩⟩, ?_, ?_⟩
  · simp [onEnter, hne, hv, ha, ChromeEventBuilder.build]
  · simp [onClose, hv, ha, ChromeEventBuilder.build]
  · simp [onEnter, hne, hv, ha, ChromeEventBuilder.build]
  · simp [onClose, hv, ha, ChromeEventBuilder.build]
  · intro start attrs s1 hmem hall h
    simp only [onNewSpan] at h
    cases hr : recordAll ⟨ChromeEvent.builder start, none⟩ attrs with
    | error e => rw [hr] at h; exact Except.noConfusion h
    | ok v1 =>
      rw [hr] at h
      injection h with h
      refine ⟨v1, by rw [← h], ?_⟩
      have hex : ∃ kv ∈ attrs, kv.1 = "event" :=
        ⟨("event", "\"async\""), hmem, rfl⟩
      have hall2 : ∀ kv ∈ attrs, kv.1 = "event" →
          trimMatches '"' kv.2 = "async" := by
        intro kv hkv hke
        rw [hall kv hkv hke]
        rfl
      have he := recordAll_event_async attrs _ v1 hex hall2 hr
      simp [isAsync, he]
  · intro start attrs ev hno h
    simp only [onEvent] at h
    cases hr : recordAll
        ⟨{ ChromeEvent.builder start with ph := some EventType.Instant }, none⟩
        attrs with
    | error e => rw [hr] at h; exact Except.noConfusion h
    | ok w =>
      rw [hr] at h
      injection h with h
      have hw := recordAll_ph_eq attrs _ w hno hr
      rw [← h]
      simp [ChromeEventBuilder.build, hw]

/-- Witness for C7: a concrete async span yields AsyncStart/AsyncEnd, a
concrete plain span yields DurationBegin/DurationEnd, creation attributes
with `event = "async"` first and a further field after it install the async
marker, and a concrete free event without a `ph` field is Instant. -/
theorem c7_phase_selection_witness :
    (onEnter ⟨0, 1, 2⟩ ⟨some ⟨ChromeEvent.builder 0, some "async"⟩, false⟩).2.map
      ChromeEvent.ph = [EventType.AsyncStart] ∧
    (onClose ⟨0, 1, 2⟩ ⟨some ⟨ChromeEvent.builder 0, some "async"⟩, false⟩).map
      ChromeEvent.ph = [EventType.AsyncEnd] ∧
    (onEnter ⟨0, 1, 2⟩ ⟨some ⟨ChromeEvent.builder 0, none⟩, false⟩).2.map
      ChromeEvent.ph = [EventType.DurationBegin] ∧
    (onClose ⟨0, 1, 2⟩ ⟨some ⟨ChromeEvent.builder 0, none⟩, false⟩).map
      ChromeEvent.ph = [EventType.DurationEnd] ∧
    (∃ v1, (SpanState.mk
          (some ⟨{ ChromeEvent.builder 0 with cat := some "io" }, some "async"⟩)
          false).visitor = some v1 ∧
        isAsync v1 = true) ∧
    ∀ ev, onEvent ⟨0, 1, 2⟩ 0 [("msg", "\"hi\"")] = .ok ev →
      ev.ph = EventType.Instant := by
  have ha := c7_phase_selection ⟨0, 1, 2⟩
    ⟨some ⟨ChromeEvent.builder 0, some "async"⟩, false⟩
    ⟨ChromeEvent.builder 0, some "async"⟩ rfl rfl
  have hb := c7_phase_selection ⟨0, 1, 2⟩
    ⟨some ⟨ChromeEvent.builder 0, none⟩, false⟩
    ⟨ChromeEvent.builder 0, none⟩ rfl rfl
  refine ⟨(ha.1.1 rfl).1, (ha.1.1 rfl).2, (hb.1.2 rfl).1, (hb.1.2 rfl).2, ?_, ?_⟩
  · exact ha.2.1 0 [("event", "\"async\""), ("cat", "\"io\"")] _
      (by decide) (by decide) rfl
  · intro ev hev
    exact ha.2.2 0 [("msg", "\"hi\"")] ev (by decide) hev

end LifecycleProofs

end Chrometrace
